import Mathlib

/-!
# Verification of the Clouisle knowledge-base core

Shallow embedding, in Lean 4, of the algorithmic core of the Clouisle
backend (quota tracking, text chunking, retrieval scoring, ingestion
pipeline), together with theorems settling the specification claims.

Conventions of the embedding:
* Python strings are modelled as `List Char`; Python integers as `Int`
  (or `Nat` where the source value is a non-negative index).
* Python floats in the scoring code are modelled as exact rationals `ℚ`;
  the arithmetic of the scoring formulas is carried out exactly.
* Fallible code returns a pair or an `Option`/`Except`; raising an
  exception is an explicit error value.
* Timestamps are modelled as integers ordered by `<`, with the start of
  the current day/month supplied as explicit parameters.
-/

namespace Clouisle

/-! ## Quota tracker (`app/services/usage_tracker.py`) -/

/-- The mutable (team, model) authorization record, mirroring the fields of
`TeamModel` that `UsageTracker` reads and writes. `none` limits mean
unlimited. -/
structure TeamModelRec where
  is_enabled : Bool
  daily_token_limit : Option Int
  monthly_token_limit : Option Int
  daily_request_limit : Option Int
  monthly_request_limit : Option Int
  daily_tokens_used : Int
  monthly_tokens_used : Int
  daily_requests_used : Int
  monthly_requests_used : Int
  daily_reset_at : Option Int
  monthly_reset_at : Option Int
  deriving Repr, DecidableEq

/-- Time environment for a call: the current instant and the precomputed
start of the current day and month (`now.replace(hour=0, ...)`). -/
structure TimeEnv where
  now : Int
  today_start : Int
  month_start : Int
  deriving Repr, DecidableEq

/-- Error outcomes of `check_quota`: the `ValueError` for a disabled
record, or `QuotaExceededError` carrying its `quota_type` string. -/
inductive QuotaCheckError where
  | disabled : QuotaCheckError
  | exceeded (quota_type : String) : QuotaCheckError
  deriving Repr, DecidableEq

/-- `UsageTracker._reset_daily_if_needed`: zero the daily counters and stamp
the reset time when the record has no daily reset stamp or it precedes the
start of the current day. Returns the updated record and whether a reset
happened. -/
def resetDailyIfNeeded (env : TimeEnv) (tm : TeamModelRec) : TeamModelRec × Bool :=
  match tm.daily_reset_at with
  | none =>
      ({ tm with daily_tokens_used := 0, daily_requests_used := 0,
                 daily_reset_at := some env.now }, true)
  | some t =>
      if t < env.today_start then
        ({ tm with daily_tokens_used := 0, daily_requests_used := 0,
                   daily_reset_at := some env.now }, true)
      else (tm, false)

/-- `UsageTracker._reset_monthly_if_needed`: the monthly analogue. -/
def resetMonthlyIfNeeded (env : TimeEnv) (tm : TeamModelRec) : TeamModelRec × Bool :=
  match tm.monthly_reset_at with
  | none =>
      ({ tm with monthly_tokens_used := 0, monthly_requests_used := 0,
                 monthly_reset_at := some env.now }, true)
  | some t =>
      if t < env.month_start then
        ({ tm with monthly_tokens_used := 0, monthly_requests_used := 0,
                   monthly_reset_at := some env.now }, true)
      else (tm, false)

/-- `UsageTracker.check_quota` on an existing record: enabled check, lazy
resets (persisted), then the four limit checks in order (daily token,
monthly token, daily request, monthly request).  The first component is the
record as persisted by the call (resets are saved before a quota error is
raised); the second is the error, if any. -/
def checkQuota (env : TimeEnv) (tm : TeamModelRec) (tokens_needed : Int) :
    TeamModelRec × Option QuotaCheckError :=
  if ¬ tm.is_enabled then (tm, some .disabled)
  else
    let tm1 := (resetDailyIfNeeded env tm).1
    let tm2 := (resetMonthlyIfNeeded env tm1).1
    match tm2.daily_token_limit with
    | some l =>
        if tm2.daily_tokens_used + tokens_needed > l then
          (tm2, some (.exceeded "daily_token"))
        else checkQuotaMonthlyToken env tm2 tokens_needed
    | none => checkQuotaMonthlyToken env tm2 tokens_needed
where
  /-- monthly-token check and the rest of the ladder -/
  checkQuotaMonthlyToken (_env : TimeEnv) (tm2 : TeamModelRec) (tokens_needed : Int) :
      TeamModelRec × Option QuotaCheckError :=
    match tm2.monthly_token_limit with
    | some l =>
        if tm2.monthly_tokens_used + tokens_needed > l then
          (tm2, some (.exceeded "monthly_token"))
        else checkQuotaRequests tm2
    | none => checkQuotaRequests tm2
  /-- daily- and monthly-request checks (note: the source compares the used
  counter against the limit without adding the pending request count) -/
  checkQuotaRequests (tm2 : TeamModelRec) : TeamModelRec × Option QuotaCheckError :=
    match tm2.daily_request_limit with
    | some l =>
        if tm2.daily_requests_used ≥ l then
          (tm2, some (.exceeded "daily_request"))
        else checkQuotaMonthlyRequest tm2
    | none => checkQuotaMonthlyRequest tm2
  /-- monthly-request check -/
  checkQuotaMonthlyRequest (tm2 : TeamModelRec) : TeamModelRec × Option QuotaCheckError :=
    match tm2.monthly_request_limit with
    | some l =>
        if tm2.monthly_requests_used ≥ l then
          (tm2, some (.exceeded "monthly_request"))
        else (tm2, none)
    | none => (tm2, none)

/-- `UsageTracker.check_and_record_usage`: run `check_quota`, and on success
increment all four used counters and persist in one write. -/
def checkAndRecordUsage (env : TimeEnv) (tm : TeamModelRec)
    (tokens_used : Int) (request_count : Int) :
    TeamModelRec × Option QuotaCheckError :=
  match checkQuota env tm tokens_used with
  | (tm2, some e) => (tm2, some e)
  | (tm2, none) =>
      ({ tm2 with
          daily_tokens_used := tm2.daily_tokens_used + tokens_used,
          monthly_tokens_used := tm2.monthly_tokens_used + tokens_used,
          daily_requests_used := tm2.daily_requests_used + request_count,
          monthly_requests_used := tm2.monthly_requests_used + request_count },
       none)

lemma checkQuotaMonthlyRequest_none (tm2 tm' : TeamModelRec)
    (h : checkQuota.checkQuotaMonthlyRequest tm2 = (tm', none)) :
    tm' = tm2 ∧ ∀ l, tm2.monthly_request_limit = some l → tm2.monthly_requests_used < l := by
  unfold checkQuota.checkQuotaMonthlyRequest at h
  split at h
  · split at h
    · simp at h
    · simp only [Prod.mk.injEq] at h
      refine ⟨h.1.symm, ?_⟩
      intro l hl
      rename_i l' heq _
      rw [heq] at hl
      cases hl
      omega
  · simp only [Prod.mk.injEq] at h
    refine ⟨h.1.symm, ?_⟩
    intro l hl
    rename_i heq
    rw [heq] at hl
    cases hl

lemma checkQuotaRequests_none (tm2 tm' : TeamModelRec)
    (h : checkQuota.checkQuotaRequests tm2 = (tm', none)) :
    tm' = tm2 ∧
      (∀ l, tm2.daily_request_limit = some l → tm2.daily_requests_used < l) ∧
      (∀ l, tm2.monthly_request_limit = some l → tm2.monthly_requests_used < l) := by
  unfold checkQuota.checkQuotaRequests at h
  split at h
  · split at h
    · simp at h
    · obtain ⟨h1, h2⟩ := checkQuotaMonthlyRequest_none tm2 tm' h
      refine ⟨h1, ?_, h2⟩
      intro l hl
      rename_i l' heq _
      rw [heq] at hl
      cases hl
      omega
  · obtain ⟨h1, h2⟩ := checkQuotaMonthlyRequest_none tm2 tm' h
    refine ⟨h1, ?_, h2⟩
    intro l hl
    rename_i heq
    rw [heq] at hl
    cases hl

lemma checkQuotaMonthlyToken_none (env : TimeEnv) (tm2 tm' : TeamModelRec)
    (tokens_needed : Int)
    (h : checkQuota.checkQuotaMonthlyToken env tm2 tokens_needed = (tm', none)) :
    tm' = tm2 ∧
      (∀ l, tm2.monthly_token_limit = some l →
        tm2.monthly_tokens_used + tokens_needed ≤ l) ∧
      (∀ l, tm2.daily_request_limit = some l → tm2.daily_requests_used < l) ∧
      (∀ l, tm2.monthly_request_limit = some l → tm2.monthly_requests_used < l) := by
  unfold checkQuota.checkQuotaMonthlyToken at h
  split at h
  · split at h
    · simp at h
    · obtain ⟨h1, h2, h3⟩ := checkQuotaRequests_none tm2 tm' h
      refine ⟨h1, ?_, h2, h3⟩
      intro l hl
      rename_i l' heq _
      rw [heq] at hl
      cases hl
      omega
  · obtain ⟨h1, h2, h3⟩ := checkQuotaRequests_none tm2 tm' h
    refine ⟨h1, ?_, h2, h3⟩
    intro l hl
    rename_i heq
    rw [heq] at hl
    cases hl

/-- A successful `check_quota` returns the after-reset record, and on it
every non-null limit has head-room for the tokens asked for (request
dimensions: strict inequality of the bare counters). -/
lemma checkQuota_none (env : TimeEnv) (tm tm2 : TeamModelRec) (tokens_needed : Int)
    (h : checkQuota env tm tokens_needed = (tm2, none)) :
    (∀ l, tm2.daily_token_limit = some l → tm2.daily_tokens_used + tokens_needed ≤ l) ∧
    (∀ l, tm2.monthly_token_limit = some l → tm2.monthly_tokens_used + tokens_needed ≤ l) ∧
    (∀ l, tm2.daily_request_limit = some l → tm2.daily_requests_used < l) ∧
    (∀ l, tm2.monthly_request_limit = some l → tm2.monthly_requests_used < l) := by
  unfold checkQuota at h
  split at h
  · simp at h
  · dsimp only at h
    split at h
    · split at h
      · simp at h
      · obtain ⟨h1, h2, h3, h4⟩ := checkQuotaMonthlyToken_none env _ tm2 tokens_needed h
        subst h1
        refine ⟨?_, h2, h3, h4⟩
        intro l hl
        rename_i l' heq _
        rw [heq] at hl
        cases hl
        omega
    · obtain ⟨h1, h2, h3, h4⟩ := checkQuotaMonthlyToken_none env _ tm2 tokens_needed h
      subst h1
      refine ⟨?_, h2, h3, h4⟩
      intro l hl
      rename_i heq
      rw [heq] at hl
      cases hl

/-- `check_and_record_usage` never changes the limit fields. -/
lemma checkAndRecordUsage_limits (env : TimeEnv) (tm tm' : TeamModelRec)
    (tokens_used request_count : Int)
    (h : checkAndRecordUsage env tm tokens_used request_count = (tm', none)) :
    ∃ tm2, checkQuota env tm tokens_used = (tm2, none) ∧
      tm' = { tm2 with
          daily_tokens_used := tm2.daily_tokens_used + tokens_used,
          monthly_tokens_used := tm2.monthly_tokens_used + tokens_used,
          daily_requests_used := tm2.daily_requests_used + request_count,
          monthly_requests_used := tm2.monthly_requests_used + request_count } := by
  unfold checkAndRecordUsage at h
  split at h
  · simp at h
  · rename_i tm2 heq
    simp only [Prod.mk.injEq] at h
    exact ⟨tm2, heq, h.1.symm⟩

/-- C1 (amended).  After a successful `check_and_record_usage` with
`tokens_used ≥ 0` and `request_count ≥ 1`, the two token counters are at
most their non-null limits, for every `request_count`; the two request
counters are at most their non-null limits when `request_count = 1`
(the pre-check compares the bare request counters against the limits, so a
larger `request_count` can overshoot a request limit). -/
theorem C1_used_counters_within_limits (env : TimeEnv) (tm tm' : TeamModelRec)
    (tokens_used request_count : Int)
    (htok : 0 ≤ tokens_used) (hreq : 1 ≤ request_count)
    (h : checkAndRecordUsage env tm tokens_used request_count = (tm', none)) :
    ((∀ l, tm'.daily_token_limit = some l → tm'.daily_tokens_used ≤ l) ∧
     (∀ l, tm'.monthly_token_limit = some l → tm'.monthly_tokens_used ≤ l)) ∧
    (request_count = 1 →
     (∀ l, tm'.daily_request_limit = some l → tm'.daily_requests_used ≤ l) ∧
     (∀ l, tm'.monthly_request_limit = some l → tm'.monthly_requests_used ≤ l)) := by
  obtain ⟨tm2, hq, hrec⟩ := checkAndRecordUsage_limits env tm tm' tokens_used request_count h
  obtain ⟨h1, h2, h3, h4⟩ := checkQuota_none env tm tm2 tokens_used hq
  subst hrec
  refine ⟨⟨?_, ?_⟩, ?_⟩
  · intro l hl
    exact h1 l hl
  · intro l hl
    exact h2 l hl
  · intro hrc
    subst hrc
    refine ⟨?_, ?_⟩
    · intro l hl
      dsimp only at hl ⊢
      have := h3 l hl
      omega
    · intro l hl
      dsimp only at hl ⊢
      have := h4 l hl
      omega

/-- Witness for C1: a record with daily token limit 100 (60 used) and daily
request limit 5 (2 used), charged 30 tokens and 1 request, stays within
both limits. -/
theorem C1_used_counters_within_limits_witness :
    (0 : Int) ≤ 30 ∧ (1 : Int) ≤ 1 ∧
    (((∀ l, (checkAndRecordUsage ⟨100, 50, 10⟩
        ⟨true, some 100, none, some 5, none, 60, 60, 2, 2, some 60, some 20⟩
        30 1).1.daily_token_limit = some l →
        (checkAndRecordUsage ⟨100, 50, 10⟩
        ⟨true, some 100, none, some 5, none, 60, 60, 2, 2, some 60, some 20⟩
        30 1).1.daily_tokens_used ≤ l) ∧
      (∀ l, (checkAndRecordUsage ⟨100, 50, 10⟩
        ⟨true, some 100, none, some 5, none, 60, 60, 2, 2, some 60, some 20⟩
        30 1).1.monthly_token_limit = some l →
        (checkAndRecordUsage ⟨100, 50, 10⟩
        ⟨true, some 100, none, some 5, none, 60, 60, 2, 2, some 60, some 20⟩
        30 1).1.monthly_tokens_used ≤ l)) ∧
     ((1 : Int) = 1 →
      (∀ l, (checkAndRecordUsage ⟨100, 50, 10⟩
        ⟨true, some 100, none, some 5, none, 60, 60, 2, 2, some 60, some 20⟩
        30 1).1.daily_request_limit = some l →
        (checkAndRecordUsage ⟨100, 50, 10⟩
        ⟨true, some 100, none, some 5, none, 60, 60, 2, 2, some 60, some 20⟩
        30 1).1.daily_requests_used ≤ l) ∧
      (∀ l, (checkAndRecordUsage ⟨100, 50, 10⟩
        ⟨true, some 100, none, some 5, none, 60, 60, 2, 2, some 60, some 20⟩
        30 1).1.monthly_request_limit = some l →
        (checkAndRecordUsage ⟨100, 50, 10⟩
        ⟨true, some 100, none, some 5, none, 60, 60, 2, 2, some 60, some 20⟩
        30 1).1.monthly_requests_used ≤ l))) :=
  ⟨by norm_num, by norm_num,
   C1_used_counters_within_limits ⟨100, 50, 10⟩
     ⟨true, some 100, none, some 5, none, 60, 60, 2, 2, some 60, some 20⟩
     _ 30 1 (by norm_num) (by norm_num) (by decide)⟩

/-- Counterexample to C1 as stated: with `daily_request_limit = 5` and
`daily_requests_used = 4`, a call with `request_count = 2` succeeds (the
check only requires `4 < 5`) and leaves `daily_requests_used = 6 > 5`. -/
theorem C1_counterexample :
    (checkAndRecordUsage ⟨100, 50, 10⟩
      ⟨true, none, none, some 5, none, 0, 0, 4, 4, some 60, some 20⟩
      0 2).2 = none ∧
    (checkAndRecordUsage ⟨100, 50, 10⟩
      ⟨true, none, none, some 5, none, 0, 0, 4, 4, some 60, some 20⟩
      0 2).1.daily_request_limit = some 5 ∧
    (checkAndRecordUsage ⟨100, 50, 10⟩
      ⟨true, none, none, some 5, none, 0, 0, 4, 4, some 60, some 20⟩
      0 2).1.daily_requests_used = 6 ∧
    ¬ ((6 : Int) ≤ 5) := by
  refine ⟨by decide, by decide, by decide, by norm_num⟩

/-- C2.  Quota boundary scenario: with `daily_token_limit = 1000` and
`daily_tokens_used = 950` (enabled, reset stamps inside the current
day/month windows, all other limits null), `check_and_record_usage` with
50 tokens succeeds and leaves `daily_tokens_used = 1000`; an immediately
following call with 1 token raises `QuotaExceeded(daily_token)` and leaves
all four used counters unchanged. -/
theorem C2_quota_boundary :
    (checkAndRecordUsage ⟨100, 50, 10⟩
      ⟨true, some 1000, none, none, none, 950, 950, 7, 7, some 60, some 20⟩
      50 1).2 = none ∧
    (checkAndRecordUsage ⟨100, 50, 10⟩
      ⟨true, some 1000, none, none, none, 950, 950, 7, 7, some 60, some 20⟩
      50 1).1.daily_tokens_used = 1000 ∧
    ((checkAndRecordUsage ⟨100, 50, 10⟩
       (checkAndRecordUsage ⟨100, 50, 10⟩
         ⟨true, some 1000, none, none, none, 950, 950, 7, 7, some 60, some 20⟩
         50 1).1
       1 1).2 = some (.exceeded "daily_token") ∧
     (checkAndRecordUsage ⟨100, 50, 10⟩
       (checkAndRecordUsage ⟨100, 50, 10⟩
         ⟨true, some 1000, none, none, none, 950, 950, 7, 7, some 60, some 20⟩
         50 1).1
       1 1).1.daily_tokens_used = 1000 ∧
     (checkAndRecordUsage ⟨100, 50, 10⟩
       (checkAndRecordUsage ⟨100, 50, 10⟩
         ⟨true, some 1000, none, none, none, 950, 950, 7, 7, some 60, some 20⟩
         50 1).1
       1 1).1.monthly_tokens_used = 1000 ∧
     (checkAndRecordUsage ⟨100, 50, 10⟩
       (checkAndRecordUsage ⟨100, 50, 10⟩
         ⟨true, some 1000, none, none, none, 950, 950, 7, 7, some 60, some 20⟩
         50 1).1
       1 1).1.daily_requests_used = 8 ∧
     (checkAndRecordUsage ⟨100, 50, 10⟩
       (checkAndRecordUsage ⟨100, 50, 10⟩
         ⟨true, some 1000, none, none, none, 950, 950, 7, 7, some 60, some 20⟩
         50 1).1
       1 1).1.monthly_requests_used = 8) := by
  refine ⟨by decide, by decide, by decide, by decide, by decide, by decide, by decide⟩

/-! ## Text chunker (`app/services/document_processor.py`, class `TextChunker`)

Python strings are modelled as `List Char`. -/

/-- Python string type, modelled as a list of characters. -/
abbrev PyStr := List Char

/-- Characters stripped by Python's `str.strip()` (the `str.isspace`
whitespace set, restricted to the code points that can occur here). -/
def isPySpace (c : Char) : Bool :=
  c = ' ' || c = '\t' || c = '\n' || c = '\u000b' || c = '\u000c' || c = '\u000d' ||
  c = '\u001c' || c = '\u001d' || c = '\u001e' || c = '\u001f' ||
  c = '\u0085' || c = '\u00a0' || c = '\u1680' ||
  ('\u2000' ≤ c && c ≤ '\u200a') ||
  c = '\u2028' || c = '\u2029' || c = '\u202f' || c = '\u205f' || c = '\u3000'

/-- Python `str.strip()`: drop whitespace from both ends. -/
def pyStrip (s : PyStr) : PyStr :=
  ((s.dropWhile isPySpace).reverse.dropWhile isPySpace).reverse

/-- Normalize a Python slice endpoint against a string of length `len`. -/
def pySliceIdx (len : Nat) (i : Int) : Nat :=
  if i < 0 then ((len : Int) + i).toNat else min i.toNat len

/-- Python `s[a:b]` for arbitrary (possibly negative) integer endpoints. -/
def pySlice (s : PyStr) (a b : Int) : PyStr :=
  (s.take (pySliceIdx s.length b)).drop (pySliceIdx s.length a)

/-- Worker for Python `str.split(sep)` with a non-empty separator: scan left
to right, emitting the accumulated segment at each (non-overlapping)
separator occurrence.  The fuel argument is structural bookkeeping only:
every step consumes at least one character, so fuel `len(s)` always
suffices and the out-of-fuel case is unreachable from `pySplit`. -/
def pySplitGo (sep : PyStr) : Nat → PyStr → PyStr → List PyStr
  | _, [], acc => [acc.reverse]
  | 0, s, acc => [acc.reverse ++ s]
  | fuel + 1, c :: rest, acc =>
    if sep.isPrefixOf (c :: rest) then
      acc.reverse :: pySplitGo sep fuel (rest.drop (sep.length - 1)) []
    else
      pySplitGo sep fuel rest (c :: acc)

/-- Python `str.split(sep)` (the source only calls it with non-empty
separators; an empty separator is mapped to the identity split). -/
def pySplit (sep s : PyStr) : List PyStr :=
  if sep = [] then [s] else pySplitGo sep s.length s []

/-- `chars_per_token` of `TextChunker`. -/
def charsPerToken : Int := 4

/-- `TextChunker.estimate_tokens`: `len(text) // chars_per_token`. -/
def estimateTokens (s : PyStr) : Int :=
  (s.length : Int) / charsPerToken

/-- `DEFAULT_CHUNK_SIZE` (tokens). -/
def DEFAULT_CHUNK_SIZE : Int := 500

/-- `DEFAULT_CHUNK_OVERLAP` (tokens). -/
def DEFAULT_CHUNK_OVERLAP : Int := 50

/-- `TextChunker.DEFAULT_SEPARATORS`, in priority order; the final empty
separator means character-level splitting. -/
def DEFAULT_SEPARATORS : List PyStr :=
  ["\n\n".toList, "\n".toList, "。".toList, "！".toList, "？".toList,
   ". ".toList, "! ".toList, "? ".toList, "；".toList, "; ".toList,
   "，".toList, ", ".toList, " ".toList, []]

/-- Constructor arguments of `TextChunker`. -/
structure ChunkerConfig where
  chunk_size : Int := DEFAULT_CHUNK_SIZE
  chunk_overlap : Int := DEFAULT_CHUNK_OVERLAP
  separators : Option (List PyStr) := none
  deriving Repr, DecidableEq

/-- `self.custom_separators`: the given separators with empties dropped. -/
def customSeparators (cfg : ChunkerConfig) : List PyStr :=
  (cfg.separators.getD []).filter (fun s => ¬ s = [])

/-- `self.separators`: custom separators first, then the default ones not
already among them. -/
def allSeparators (cfg : ChunkerConfig) : List PyStr :=
  let cs := customSeparators cfg
  if ¬ cs = [] then cs ++ DEFAULT_SEPARATORS.filter (fun s => ¬ s ∈ cs)
  else DEFAULT_SEPARATORS

/-- Overlap-carry computation of `TextChunker._merge_splits`: walk the
pieces of the just-emitted chunk from the end, keeping them while the
accumulated size (piece + separator each) stays within the overlap budget.
Returns the kept pieces in original order and their accumulated size.  The
argument list is the reversed current chunk. -/
def overlapTake (sep : PyStr) (overlap : Int) : List PyStr → Int → List PyStr × Int
  | [], sz => ([], sz)
  | s :: rest, sz =>
    if sz + (s.length : Int) + sep.length ≤ overlap then
      let r := overlapTake sep overlap rest (sz + (s.length : Int) + sep.length)
      (r.1 ++ [s], r.2)
    else ([], sz)

/-- Main loop of `TextChunker._merge_splits`: greedy bin-packing of the
splits into chunks of at most `target` characters, carrying a trailing
overlap into the next chunk when `overlap > 0`. -/
def mergeSplitsGo (sep : PyStr) (target overlap : Int) :
    List PyStr → List PyStr → Int → List PyStr → List PyStr
  | [], current_chunk, _current_size, chunks =>
    if ¬ current_chunk = [] then
      let chunk_text := List.intercalate sep current_chunk
      if ¬ chunk_text = [] then chunks ++ [chunk_text] else chunks
    else chunks
  | split :: rest, current_chunk, current_size, chunks =>
    let split_size := (split.length : Int) + sep.length
    if current_size + split_size > target ∧ ¬ current_chunk = [] then
      let chunk_text := List.intercalate sep current_chunk
      let chunks' := chunks ++ [chunk_text]
      if overlap > 0 then
        let r := overlapTake sep overlap current_chunk.reverse 0
        mergeSplitsGo sep target overlap rest (r.1 ++ [split]) (r.2 + split_size) chunks'
      else
        mergeSplitsGo sep target overlap rest [split] split_size chunks'
    else
      mergeSplitsGo sep target overlap rest (current_chunk ++ [split])
        (current_size + split_size) chunks

/-- `TextChunker._merge_splits`. -/
def mergeSplits (splits : List PyStr) (sep : PyStr) (target overlap : Int) :
    List PyStr :=
  mergeSplitsGo sep target overlap splits [] 0 []

/-- First separator in the list that splits the text into more than one
piece, with the resulting pieces (`for separator in separators: ...`). -/
def firstSplitting (text : PyStr) : List PyStr → Option (List PyStr × PyStr)
  | [] => none
  | sep :: rest =>
    let splits := if ¬ sep = [] then pySplit sep text else text.map (fun c => [c])
    if splits.length > 1 then some (splits, sep) else firstSplitting text rest

/-- Fallback hard-split loop shared by `_split_recursive` and
`_split_recursive_with_separators` (lines 598-612 / 630-645): fixed-width
windows of `target` characters.  The Python loop need not terminate (see
the C3 theorems), so it is modelled with explicit fuel; `hardSplit` below
supplies fuel `len(text) + 1`, which is proved sufficient whenever
`overlap < target`. -/
def hardSplitGo (text : PyStr) (target overlap : Int) :
    Nat → Int → List PyStr → List PyStr
  | 0, _, chunks => chunks
  | fuel + 1, start, chunks =>
    if start < (text.length : Int) then
      let e := min (start + target) (text.length : Int)
      let chunks' := chunks ++ [pySlice text start e]
      if overlap > 0 then
        let start' := e - overlap
        if start' ≥ (text.length : Int) - overlap then chunks'
        else hardSplitGo text target overlap fuel start' chunks'
      else
        if e ≥ (text.length : Int) then chunks'
        else hardSplitGo text target overlap fuel e chunks'
    else chunks

/-- Fuel-supplied entry point of the fallback hard split. -/
def hardSplit (text : PyStr) (target overlap : Int) : List PyStr :=
  hardSplitGo text target overlap (text.length + 1) 0 []

/-- `TextChunker._split_recursive_with_separators`. -/
def splitRecursiveWithSeparators (text : PyStr) (target overlap : Int)
    (separators : List PyStr) : List PyStr :=
  if (text.length : Int) ≤ target then (if ¬ text = [] then [text] else [])
  else
    match firstSplitting text separators with
    | some (splits, sep) => mergeSplits splits sep target overlap
    | none => hardSplit text target overlap

/-- `TextChunker._split_recursive` (the guard keeps the whole text only if
it has non-whitespace content). -/
def splitRecursive (seps : List PyStr) (text : PyStr) (target overlap : Int) :
    List PyStr :=
  if (text.length : Int) ≤ target then (if ¬ pyStrip text = [] then [text] else [])
  else
    match firstSplitting text seps with
    | some (splits, sep) => mergeSplits splits sep target overlap
    | none => hardSplit text target overlap

/-- `re.split` with a capturing alternation of the (escaped, literal)
custom separators: scan left to right, trying the separators in order at
each position; matched separators are kept as their own list entries. -/
def reSplitKeepGo (seps : List PyStr) : Nat → PyStr → PyStr → List PyStr
  | _, [], acc => [acc.reverse]
  | 0, s, acc => [acc.reverse ++ s]
  | fuel + 1, c :: rest, acc =>
    match seps.find? (fun sep => sep.isPrefixOf (c :: rest)) with
    | some sep =>
        acc.reverse :: sep :: reSplitKeepGo seps fuel (rest.drop (sep.length - 1)) []
    | none => reSplitKeepGo seps fuel rest (c :: acc)

/-- `re.split(pattern, text)` of `_split_by_custom_separators`.  As in
`pySplitGo`, fuel `len(text)` always suffices. -/
def reSplitKeep (seps : List PyStr) (text : PyStr) : List PyStr :=
  reSplitKeepGo seps text.length text []

/-- Reassembly loop of `_split_by_custom_separators` (lines 506-518):
attach each separator as the prefix of the following section. -/
def reassembleSections (customSeps : List PyStr) : List PyStr → PyStr → List PyStr
  | [], current => if ¬ current = [] then [current] else []
  | part :: rest, current =>
    if part ∈ customSeps then
      (if ¬ current = [] then [current] else []) ++ reassembleSections customSeps rest part
    else
      reassembleSections customSeps rest (current ++ part)

/-- Per-section loop of `_split_by_custom_separators` (lines 524-556):
keep small sections whole, recursively split oversized ones with the
default separators, and carry a trailing overlap of the previous section's
last chunk onto the next section's first chunk. -/
def processSections (cs_size target overlap : Int) :
    List PyStr → PyStr → List PyStr → List PyStr
  | [], _prev_tail, all_chunks => all_chunks
  | sec :: rest, prev_tail, all_chunks =>
    let section_chunks :=
      if estimateTokens sec ≤ cs_size then [sec]
      else splitRecursiveWithSeparators sec target overlap DEFAULT_SEPARATORS
    let section_chunks :=
      if ¬ prev_tail = [] ∧ overlap > 0 ∧ ¬ section_chunks = [] then
        match section_chunks with
        | [] => section_chunks
        | h :: t => (prev_tail ++ h) :: t
      else section_chunks
    let new_tail :=
      if ¬ section_chunks = [] then
        let last := (section_chunks.getLast?).getD []
        if overlap > 0 then
          if (last.length : Int) > overlap then pySlice last (-overlap) last.length
          else last
        else []
      else prev_tail
    processSections cs_size target overlap rest new_tail (all_chunks ++ section_chunks)

/-- `TextChunker._split_by_custom_separators`. -/
def splitByCustomSeparators (cfg : ChunkerConfig) (text : PyStr)
    (target overlap : Int) : List PyStr :=
  let parts := reSplitKeep (customSeparators cfg) text
  let sections := reassembleSections (customSeparators cfg) parts []
  let sections := sections.filter (fun s => ¬ s = [])
  processSections cfg.chunk_size target overlap sections [] []

/-- One output record of `TextChunker.chunk_text`. -/
structure ChunkRecord where
  content : PyStr
  chunk_index : Nat
  token_count : Int
  char_count : Nat
  deriving Repr, DecidableEq

/-- `TextChunker.chunk_text`: the top-level chunking entry point. -/
def chunkText (cfg : ChunkerConfig) (text : PyStr) : List ChunkRecord :=
  if pyStrip text = [] then []
  else
    let target_chars := cfg.chunk_size * charsPerToken
    let overlap_chars := cfg.chunk_overlap * charsPerToken
    let chunks :=
      if ¬ customSeparators cfg = [] then
        splitByCustomSeparators cfg text target_chars overlap_chars
      else
        splitRecursive (allSeparators cfg) text target_chars overlap_chars
    chunks.enum.map (fun p =>
      { content := p.2, chunk_index := p.1,
        token_count := estimateTokens p.2, char_count := p.2.length })

/-! ### The fallback hard-split loop, viewed through its window start offsets -/

/-- Start-offset update of the fallback loop (lines 603-610 / 636-643): the
next window start, or `none` when the loop breaks after the current
window. -/
def hardSplitNext (len target overlap start : Int) : Option Int :=
  let e := min (start + target) len
  if overlap > 0 then
    let s := e - overlap
    if s ≥ len - overlap then none else some s
  else
    if e ≥ len then none else some e

/-- Successive window start offsets emitted by the fallback loop, with
fuel; the boolean records whether the loop has actually exited within the
given fuel (`false` = still running). -/
def hardWindows (len target overlap : Int) : Nat → Int → List Int × Bool
  | 0, start => if start < len then ([], false) else ([], true)
  | fuel + 1, start =>
    if start < len then
      match hardSplitNext len target overlap start with
      | none => ([start], true)
      | some s =>
          let r := hardWindows len target overlap fuel s
          (start :: r.1, r.2)
    else ([], true)

lemma hardWindows_progress (len target overlap : Int)
    (ht : 0 < target) (ho : 0 ≤ overlap) (hlt : overlap < target) :
    ∀ fuel : Nat, ∀ start : Int, 0 ≤ start → (len - start).toNat ≤ fuel →
      (hardWindows len target overlap fuel start).2 = true ∧
      List.Chain' (· < ·) (hardWindows len target overlap fuel start).1 ∧
      (∀ y ∈ (hardWindows len target overlap fuel start).1, start ≤ y) := by
  intro fuel
  induction fuel with
  | zero =>
      intro start _h0 hfuel
      have hge : ¬ start < len := by omega
      simp [hardWindows, hge]
  | succ fuel ih =>
      intro start h0 hfuel
      by_cases hs : start < len
      · rcases lt_or_eq_of_le ho with ho2 | ho2
        · -- overlap > 0
          by_cases hb : min (start + target) len - overlap ≥ len - overlap
          · have hnext : hardSplitNext len target overlap start = none := by
              simp only [hardSplitNext]
              rw [if_pos ho2, if_pos hb]
            simp [hardWindows, hs, hnext]
          · set s := min (start + target) len - overlap with hsdef
            have hnext : hardSplitNext len target overlap start = some s := by
              simp only [hardSplitNext]
              rw [if_pos ho2, if_neg hb]
            have hmin : min (start + target) len = start + target := by
              rcases min_cases (start + target) len with ⟨h1, _⟩ | ⟨h1, h2⟩
              · exact h1
              · omega
            have hss : s = start + target - overlap := by omega
            have hstep : start < s := by omega
            have hs0 : 0 ≤ s := by omega
            have hsf : (len - s).toNat ≤ fuel := by omega
            obtain ⟨ihf, ihc, ihm⟩ := ih s hs0 hsf
            refine ⟨?_, ?_, ?_⟩
            · simp only [hardWindows, if_pos hs, hnext]
              exact ihf
            · simp only [hardWindows, if_pos hs, hnext]
              refine List.chain'_cons'.mpr ⟨?_, ihc⟩
              intro y hy
              have : y ∈ (hardWindows len target overlap fuel s).1 :=
                List.mem_of_mem_head? hy
              have := ihm y this
              omega
            · simp only [hardWindows, if_pos hs, hnext]
              intro y hy
              rcases List.mem_cons.mp hy with rfl | hy
              · exact le_refl _
              · have := ihm y hy
                omega
        · -- overlap = 0
          by_cases hb : min (start + target) len ≥ len
          · have hnext : hardSplitNext len target overlap start = none := by
              simp only [hardSplitNext]
              rw [if_neg (by omega), if_pos hb]
            simp [hardWindows, hs, hnext]
          · set s := min (start + target) len with hsdef
            have hno : ¬ overlap > 0 := by omega
            have hnext : hardSplitNext len target overlap start = some s := by
              simp only [hardSplitNext]
              rw [if_neg hno, if_neg hb]
            have hmin : min (start + target) len = start + target := by
              rcases min_cases (start + target) len with ⟨h1, _⟩ | ⟨h1, h2⟩
              · exact h1
              · omega
            have hstep : start < s := by omega
            have hs0 : 0 ≤ s := by omega
            have hsf : (len - s).toNat ≤ fuel := by omega
            obtain ⟨ihf, ihc, ihm⟩ := ih s hs0 hsf
            refine ⟨?_, ?_, ?_⟩
            · simp only [hardWindows, if_pos hs, hnext]
              exact ihf
            · simp only [hardWindows, if_pos hs, hnext]
              refine List.chain'_cons'.mpr ⟨?_, ihc⟩
              intro y hy
              have : y ∈ (hardWindows len target overlap fuel s).1 :=
                List.mem_of_mem_head? hy
              have := ihm y this
              omega
            · simp only [hardWindows, if_pos hs, hnext]
              intro y hy
              rcases List.mem_cons.mp hy with rfl | hy
              · exact le_refl _
              · have := ihm y hy
                omega
      · simp [hardWindows, hs]

/-- C3 (amended).  Whenever `0 ≤ overlap < target`, the fallback
fixed-width window loop terminates (fuel `len(text) + 1` suffices) and its
successive window start offsets are strictly increasing.  For
`overlap ≥ target` the loop makes no forward progress (see the
counterexample). -/
theorem C3_hard_split_terminates (text : PyStr) (target overlap : Int)
    (ht : 0 < target) (ho : 0 ≤ overlap) (hlt : overlap < target) :
    (hardWindows (text.length : Int) target overlap (text.length + 1) 0).2 = true ∧
    List.Chain' (· < ·)
      (hardWindows (text.length : Int) target overlap (text.length + 1) 0).1 := by
  obtain ⟨h1, h2, _⟩ :=
    hardWindows_progress (text.length : Int) target overlap ht ho hlt
      (text.length + 1) 0 (le_refl 0) (by omega)
  exact ⟨h1, h2⟩

/-- Witness for C3: a 10-character text, window 4, overlap 2. -/
theorem C3_hard_split_terminates_witness :
    (0 : Int) < 4 ∧ (0 : Int) ≤ 2 ∧ (2 : Int) < 4 ∧
    ((hardWindows (("abcdefghij".toList).length : Int) 4 2
        (("abcdefghij".toList).length + 1) 0).2 = true ∧
     List.Chain' (· < ·)
       (hardWindows (("abcdefghij".toList).length : Int) 4 2
         (("abcdefghij".toList).length + 1) 0).1) :=
  ⟨by norm_num, by norm_num, by norm_num,
   C3_hard_split_terminates ("abcdefghij".toList) 4 2
     (by norm_num) (by norm_num) (by norm_num)⟩

/-- Counterexample to C3 as stated: with a 20-character text, window
`target = 4 > 0` and `overlap = 4 ≥ 0` (overlap = window), the first five
successive window start offsets are all `0` — not strictly increasing —
and the loop has not exited after five iterations (it never does: the
start offset is a fixed point). -/
theorem C3_counterexample :
    (hardWindows (("aaaaaaaaaaaaaaaaaaaa".toList).length : Int) 4 4 5 0).1 =
      [0, 0, 0, 0, 0] ∧
    (hardWindows (("aaaaaaaaaaaaaaaaaaaa".toList).length : Int) 4 4 5 0).2 = false ∧
    ¬ List.Chain' (· < ·)
        (hardWindows (("aaaaaaaaaaaaaaaaaaaa".toList).length : Int) 4 4 5 0).1 := by
  have h : (hardWindows (("aaaaaaaaaaaaaaaaaaaa".toList).length : Int) 4 4 5 0).1 =
      [0, 0, 0, 0, 0] := by decide
  refine ⟨h, by decide, ?_⟩
  rw [h]
  simp [List.chain'_cons]

/-! ### C10: whitespace-only input -/

/-- C10.  An input that is empty or all-whitespace produces no chunks, for
every chunker configuration. -/
theorem C10_whitespace_yields_no_chunks (cfg : ChunkerConfig) (text : PyStr)
    (h : ∀ c ∈ text, isPySpace c = true) :
    chunkText cfg text = [] := by
  have hdrop : text.dropWhile isPySpace = [] := by
    rw [List.dropWhile_eq_nil_iff]
    exact h
  have hstrip : pyStrip text = [] := by
    simp [pyStrip, hdrop]
  unfold chunkText
  rw [if_pos hstrip]

/-- Witness for C10: a space–newline–tab string yields no chunks. -/
theorem C10_whitespace_yields_no_chunks_witness :
    (∀ c ∈ (" \n\t ".toList), isPySpace c = true) ∧
    chunkText { chunk_size := 500, chunk_overlap := 50, separators := none }
      (" \n\t ".toList) = [] :=
  ⟨by decide,
   C10_whitespace_yields_no_chunks
     { chunk_size := 500, chunk_overlap := 50, separators := none }
     (" \n\t ".toList) (by decide)⟩

/-! ### C8: chunk-index contiguity -/

/-- A stored `DocumentChunk` row, as far as chunk reindexing is concerned:
its primary key and its `chunk_index` column. -/
structure StoredChunk where
  id : Nat
  chunk_index : Nat
  deriving Repr, DecidableEq

/-- `delete_document_chunk` (endpoint, lines 1199-1205), restricted to one
document's chunk rows: look the chunk up by id (404 → `none`), delete that
row, and bulk-decrement `chunk_index` on every row whose index exceeds the
deleted one. -/
def deleteChunkReindex (chunks : List StoredChunk) (cid : Nat) :
    Option (List StoredChunk) :=
  match chunks.find? (fun c => c.id = cid) with
  | none => none
  | some c =>
      some ((chunks.filter (fun x => ¬ x.id = cid)).map
        (fun x => if c.chunk_index < x.chunk_index then
            { x with chunk_index := x.chunk_index - 1 } else x))

lemma chunkText_indices (cfg : ChunkerConfig) (text : PyStr) :
    (chunkText cfg text).map (fun c => c.chunk_index) =
      List.range (chunkText cfg text).length := by
  unfold chunkText
  split
  · simp
  · dsimp only
    rw [List.map_map, List.length_map]
    have : ((fun c : ChunkRecord => c.chunk_index) ∘ fun p : Nat × PyStr =>
        ({ content := p.2, chunk_index := p.1, token_count := estimateTokens p.2,
           char_count := p.2.length } : ChunkRecord)) = Prod.fst := rfl
    rw [this, List.enum_map_fst, List.enum_length]

lemma deleteChunkReindex_spec (A B : List StoredChunk) (c : StoredChunk) (cid : Nat)
    (hc : c.id = cid)
    (hnotin : cid ∉ (A ++ B).map (fun x => x.id))
    (hidx : (A ++ c :: B).map (fun x => x.chunk_index) =
      List.range (A.length + B.length + 1)) :
    deleteChunkReindex (A ++ c :: B) cid =
      some (A ++ B.map (fun b : StoredChunk => { b with chunk_index := b.chunk_index - 1 })) ∧
    (A ++ B.map (fun b : StoredChunk => { b with chunk_index := b.chunk_index - 1 })).map
        (fun x : StoredChunk => x.chunk_index) = List.range (A.length + B.length) ∧
    (A ++ B.map (fun b : StoredChunk => { b with chunk_index := b.chunk_index - 1 })).map
        (fun x : StoredChunk => x.id) = (A ++ B).map (fun x => x.id) := by
  have hAid : ∀ a ∈ A, ¬ a.id = cid := by
    intro a ha h
    exact hnotin (by
      rw [List.map_append]
      exact List.mem_append_left _ (h ▸ List.mem_map_of_mem (fun x => x.id) ha))
  have hBid : ∀ b ∈ B, ¬ b.id = cid := by
    intro b hb h
    exact hnotin (by
      rw [List.map_append]
      exact List.mem_append_right _ (h ▸ List.mem_map_of_mem (fun x => x.id) hb))
  -- decompose the contiguity hypothesis
  have hsplit : A.map (fun x => x.chunk_index) ++
      (c.chunk_index :: B.map (fun x => x.chunk_index)) =
      List.range A.length ++ (List.range (B.length + 1)).map (A.length + ·) := by
    have h1 : (A ++ c :: B).map (fun x => x.chunk_index) =
        A.map (fun x => x.chunk_index) ++
          (c.chunk_index :: B.map (fun x => x.chunk_index)) := by
      simp
    rw [← h1, hidx, ← List.range_add]
    congr 1
  have hlenA : (A.map (fun x => x.chunk_index)).length = (List.range A.length).length := by
    simp
  obtain ⟨hAidx, hrest⟩ := List.append_inj hsplit (by simpa using hlenA)
  have hrest' : c.chunk_index :: B.map (fun x => x.chunk_index) =
      A.length :: (List.range B.length).map (fun k => A.length + (k + 1)) := by
    rw [hrest, List.range_succ_eq_map]
    simp [Function.comp_def, Nat.add_comm, Nat.add_left_comm, Nat.add_assoc]
  have hcidx : c.chunk_index = A.length := by
    have := List.head_eq_of_cons_eq hrest'
    exact this
  have hBidx : B.map (fun x => x.chunk_index) =
      (List.range B.length).map (fun k => A.length + (k + 1)) :=
    List.tail_eq_of_cons_eq hrest'
  -- the find? locates c
  have hfind : (A ++ c :: B).find? (fun x => decide (x.id = cid)) = some c := by
    rw [List.find?_append]
    have hA : A.find? (fun x => decide (x.id = cid)) = none := by
      rw [List.find?_eq_none]
      intro a ha
      simpa using hAid a ha
    rw [hA]
    simp [List.find?_cons_of_pos, hc]
  -- the filter removes exactly c
  have hfilter : (A ++ c :: B).filter (fun x => decide (¬ x.id = cid)) = A ++ B := by
    rw [List.filter_append, List.filter_cons]
    have hcfalse : (decide (¬ c.id = cid)) = false := by simp [hc]
    rw [hcfalse]
    have hAf : A.filter (fun x => decide (¬ x.id = cid)) = A :=
      List.filter_eq_self.mpr (fun a ha => by simpa using hAid a ha)
    have hBf : B.filter (fun x => decide (¬ x.id = cid)) = B :=
      List.filter_eq_self.mpr (fun b hb => by simpa using hBid b hb)
    rw [hAf, hBf]
    simp
  -- indices in A are below c's, indices in B are above
  have hAlt : ∀ a ∈ A, a.chunk_index < c.chunk_index := by
    intro a ha
    have : a.chunk_index ∈ A.map (fun x => x.chunk_index) :=
      List.mem_map_of_mem _ ha
    rw [hAidx] at this
    rw [hcidx]
    exact List.mem_range.mp this
  have hBgt : ∀ b ∈ B, c.chunk_index < b.chunk_index := by
    intro b hb
    have : b.chunk_index ∈ B.map (fun x => x.chunk_index) :=
      List.mem_map_of_mem _ hb
    rw [hBidx] at this
    obtain ⟨k, _, hk⟩ := List.mem_map.mp this
    omega
  -- evaluate the function
  have hmapA : A.map (fun x : StoredChunk => if c.chunk_index < x.chunk_index then
      { x with chunk_index := x.chunk_index - 1 } else x) = A := by
    rw [show A = A.map id by simp]
    rw [List.map_map]
    refine List.map_congr_left ?_
    intro a ha
    simp only [Function.comp_def, id]
    rw [if_neg (by have := hAlt a (by simpa using ha); omega)]
  have hmapB : B.map (fun x : StoredChunk => if c.chunk_index < x.chunk_index then
      { x with chunk_index := x.chunk_index - 1 } else x) =
      B.map (fun b : StoredChunk => { b with chunk_index := b.chunk_index - 1 }) := by
    refine List.map_congr_left ?_
    intro b hb
    rw [if_pos (hBgt b hb)]
  have hval : deleteChunkReindex (A ++ c :: B) cid =
      some (A ++ B.map (fun b : StoredChunk => { b with chunk_index := b.chunk_index - 1 })) := by
    unfold deleteChunkReindex
    rw [hfind]
    dsimp only
    rw [hfilter, List.map_append, hmapA, hmapB]
  refine ⟨hval, ?_, ?_⟩
  · rw [List.map_append, hAidx, List.map_map]
    have : ((fun x : StoredChunk => x.chunk_index) ∘
        fun b : StoredChunk => { b with chunk_index := b.chunk_index - 1 }) =
        (fun b : StoredChunk => b.chunk_index - 1) := rfl
    rw [this]
    have hB1 : B.map (fun b : StoredChunk => b.chunk_index - 1) =
        (B.map (fun x => x.chunk_index)).map (fun n => n - 1) := by
      rw [List.map_map]
      rfl
    rw [hB1, hBidx, List.map_map, List.range_add]
    congr 1
  · simp only [List.map_append, List.map_map]
    rfl

/-- C8.  (i) `chunk_text` emits chunk indices exactly `0..N-1` in output
order for every configuration and input; (ii) deleting the chunk at index
`j` from a document whose `N` chunks carry ids unique to them and indices
exactly `0..N-1` leaves rows indexed exactly `0..N-2`, with the surviving
rows' ids in unchanged relative order. -/
theorem C8_chunk_index_contiguity :
    (∀ (cfg : ChunkerConfig) (text : PyStr),
      (chunkText cfg text).map (fun c => c.chunk_index) =
        List.range (chunkText cfg text).length) ∧
    (∀ (A B : List StoredChunk) (c : StoredChunk) (cid : Nat),
      c.id = cid →
      cid ∉ (A ++ B).map (fun x => x.id) →
      (A ++ c :: B).map (fun x => x.chunk_index) =
        List.range (A.length + B.length + 1) →
      ∃ l, deleteChunkReindex (A ++ c :: B) cid = some l ∧
        l.map (fun x => x.chunk_index) = List.range (A.length + B.length) ∧
        l.map (fun x => x.id) = (A ++ B).map (fun x => x.id)) := by
  refine ⟨chunkText_indices, ?_⟩
  intro A B c cid hc hnotin hidx
  obtain ⟨h1, h2, h3⟩ := deleteChunkReindex_spec A B c cid hc hnotin hidx
  exact ⟨_, h1, h2, h3⟩

/-- Witness for C8: chunking a concrete two-paragraph text yields indices
`[0, 1]`, and deleting the middle chunk of a three-chunk document leaves
indices `[0, 1]` with the surviving ids `[10, 30]` in order. -/
theorem C8_chunk_index_contiguity_witness :
    ((chunkText { chunk_size := 2, chunk_overlap := 0, separators := none }
        ("aaaaaaaaaa\n\nbbbbbbbbbb".toList)).map (fun c => c.chunk_index) =
      List.range (chunkText { chunk_size := 2, chunk_overlap := 0, separators := none }
        ("aaaaaaaaaa\n\nbbbbbbbbbb".toList)).length) ∧
    ((⟨20, 1⟩ : StoredChunk).id = 20 ∧
     (20 : Nat) ∉ ([⟨10, 0⟩] ++ [⟨30, 2⟩] : List StoredChunk).map (fun x => x.id) ∧
     ∃ l, deleteChunkReindex ([⟨10, 0⟩] ++ (⟨20, 1⟩ : StoredChunk) :: [⟨30, 2⟩]) 20 = some l ∧
       l.map (fun x => x.chunk_index) = List.range 2 ∧
       l.map (fun x => x.id) = ([⟨10, 0⟩] ++ [⟨30, 2⟩] : List StoredChunk).map (fun x => x.id)) := by
  refine ⟨C8_chunk_index_contiguity.1 _ _, by decide, by decide, ?_⟩
  have h := C8_chunk_index_contiguity.2 [⟨10, 0⟩] [⟨30, 2⟩] ⟨20, 1⟩ 20
    (by decide) (by decide) (by decide)
  simpa using h

/-! ### C4 and C5: concrete chunking scenarios -/

/-- The C4 example input: three 20-character paragraphs joined by `"\n\n"`. -/
def threeParagraphText : PyStr :=
  "aaaaaaaaaaaaaaaaaaaa\n\nbbbbbbbbbbbbbbbbbbbb\n\ncccccccccccccccccccc".toList

/-- The C4 chunker configuration: 10-token chunks, 2-token overlap. -/
def c4Config : ChunkerConfig :=
  { chunk_size := 10, chunk_overlap := 2, separators := none }

/-- Counterexample to C4 as stated: on the three-paragraph input the
produced chunks are exactly the three paragraphs.  The second chunk's
first 8 characters (`"bbbbbbbb"`) are not a suffix of the first chunk
(`"a" * 20`), so no chunk after the first begins with an 8-character suffix
of its predecessor: `_merge_splits` carries overlap only in whole pieces,
and each 22-character piece (paragraph + separator) exceeds the 8-character
overlap budget, so no overlap is carried at all. -/
theorem C4_counterexample :
    (chunkText c4Config threeParagraphText).map (fun c => c.content) =
      ["aaaaaaaaaaaaaaaaaaaa".toList, "bbbbbbbbbbbbbbbbbbbb".toList,
       "cccccccccccccccccccc".toList] ∧
    8 ≤ ("bbbbbbbbbbbbbbbbbbbb".toList).length ∧
    ¬ (("bbbbbbbbbbbbbbbbbbbb".toList).take 8 <:+ ("aaaaaaaaaaaaaaaaaaaa".toList)) := by
  refine ⟨by decide, by decide, by decide⟩

/-- C4 (amended).  The end-to-end example produces at least 3 chunks (in
fact exactly the three paragraphs), each of at most 48 characters; because
every split piece (paragraph plus separator, 22 characters) exceeds the
8-character overlap budget, no trailing overlap is carried, so non-first
chunks do not begin with an 8-character suffix of their predecessor. -/
theorem C4_end_to_end_example :
    3 ≤ (chunkText c4Config threeParagraphText).length ∧
    (∀ c ∈ chunkText c4Config threeParagraphText, c.char_count ≤ 48) ∧
    (chunkText c4Config threeParagraphText).map (fun c => c.content) =
      ["aaaaaaaaaaaaaaaaaaaa".toList, "bbbbbbbbbbbbbbbbbbbb".toList,
       "cccccccccccccccccccc".toList] := by
  refine ⟨by decide, by decide, by decide⟩

/-- The C5 example input. -/
def sharpText : PyStr := "A###B###C".toList

/-- A chunker built as `TextChunker(chunk_size=cs, separators=["###"])`
with the constructor's default `chunk_overlap = 50`. -/
def sharpConfigDefault : ChunkerConfig :=
  { chunk_size := DEFAULT_CHUNK_SIZE, chunk_overlap := DEFAULT_CHUNK_OVERLAP,
    separators := some ["###".toList] }

/-- A chunker with custom separators `["###"]` and no overlap. -/
def sharpConfig (cs : Int) : ChunkerConfig :=
  { chunk_size := cs, chunk_overlap := 0, separators := some ["###".toList] }

/-- Counterexample to C5 as stated: with custom separators `["###"]` and
the constructor's default `chunk_overlap = 50` (200 characters), the chunks
of `"A###B###C"` are `["A", "A###B", "A###B###C"]` — the previous section's
tail is prepended to each following section — not the partition
`["A", "###B", "###C"]`. -/
theorem C5_counterexample :
    (chunkText sharpConfigDefault sharpText).map (fun c => c.content) =
      ["A".toList, "A###B".toList, "A###B###C".toList] ∧
    ¬ (chunkText sharpConfigDefault sharpText).map (fun c => c.content) =
      ["A".toList, "###B".toList, "###C".toList] := by
  refine ⟨by decide, by decide⟩

lemma processSections_zero_overlap (cs t : Int) :
    ∀ (sections : List PyStr) (tail : PyStr) (acc : List PyStr),
      (∀ s ∈ sections, estimateTokens s ≤ cs) →
      processSections cs t 0 sections tail acc = acc ++ sections := by
  intro sections
  induction sections with
  | nil =>
      intro tail acc _
      simp [processSections]
  | cons sec rest ih =>
      intro tail acc h
      have h1 : estimateTokens sec ≤ cs := h sec (List.mem_cons_self _ _)
      have h2 : ∀ s ∈ rest, estimateTokens s ≤ cs :=
        fun s hs => h s (List.mem_cons_of_mem _ hs)
      simp only [processSections]
      rw [if_pos h1]
      rw [if_neg (show ¬ (¬ tail = [] ∧ (0 : Int) > 0 ∧ ¬ ([sec] : List PyStr) = []) by
        intro hh
        exact absurd hh.2.1 (by norm_num))]
      rw [if_pos (show ¬ ([sec] : List PyStr) = [] by simp)]
      rw [if_neg (show ¬ (0 : Int) > 0 by norm_num)]
      rw [ih [] (acc ++ [sec]) h2]
      simp

/-- C5 (amended).  With custom separators `["###"]`, `chunk_overlap = 0`
and any `chunk_size ≥ 1` token, the chunks of `"A###B###C"` are exactly
`["A", "###B", "###C"]` (the separator prefixed to the following segment),
regardless of `chunk_size`; with a positive overlap the same section
boundaries are used but each section is prefixed with the previous
section's tail. -/
theorem C5_custom_separator_boundaries (cs : Int) (hcs : 1 ≤ cs) :
    (chunkText (sharpConfig cs) sharpText).map (fun c => c.content) =
      ["A".toList, "###B".toList, "###C".toList] := by
  have hcs0 : customSeparators (sharpConfig cs) = ["###".toList] := rfl
  unfold chunkText
  rw [if_neg (show ¬ pyStrip sharpText = [] by decide)]
  dsimp only
  rw [if_pos (show ¬ customSeparators (sharpConfig cs) = [] by rw [hcs0]; simp)]
  unfold splitByCustomSeparators
  dsimp only
  have hsecs : (reassembleSections (customSeparators (sharpConfig cs))
      (reSplitKeep (customSeparators (sharpConfig cs)) sharpText) []).filter
      (fun s => decide (¬ s = [])) = ["A".toList, "###B".toList, "###C".toList] := by
    rw [hcs0]
    rfl
  rw [hsecs]
  have hover : (sharpConfig cs).chunk_overlap * charsPerToken = 0 := by
    show (0 : Int) * charsPerToken = 0
    norm_num
  rw [hover]
  rw [processSections_zero_overlap ((sharpConfig cs).chunk_size)
        ((sharpConfig cs).chunk_size * charsPerToken)
        ["A".toList, "###B".toList, "###C".toList] [] [] ?_]
  · rfl
  · intro s hs
    have hcseq : (sharpConfig cs).chunk_size = cs := rfl
    simp only [List.mem_cons, List.not_mem_nil, or_false] at hs
    rcases hs with rfl | rfl | rfl
    · have h0 : estimateTokens ("A".toList) = 0 := by decide
      rw [h0, hcseq]
      omega
    · have h0 : estimateTokens ("###B".toList) = 1 := by decide
      rw [h0, hcseq]
      omega
    · have h0 : estimateTokens ("###C".toList) = 1 := by decide
      rw [h0, hcseq]
      omega

/-- Witness for C5 (amended): `chunk_size = 7`. -/
theorem C5_custom_separator_boundaries_witness :
    (1 : Int) ≤ 7 ∧
    (chunkText (sharpConfig 7) sharpText).map (fun c => c.content) =
      ["A".toList, "###B".toList, "###C".toList] :=
  ⟨by norm_num, C5_custom_separator_boundaries 7 (by norm_num)⟩

/-! ## Retrieval scoring (`app/services/vector_store.py`) -/

/-- Python `str.lower()` restricted to the ASCII letters (the model of
`.lower()` used throughout the scoring code; non-ASCII characters are left
unchanged). -/
def pyCharLower (c : Char) : Char :=
  if c = 'A' then 'a' else
  if c = 'B' then 'b' else
  if c = 'C' then 'c' else
  if c = 'D' then 'd' else
  if c = 'E' then 'e' else
  if c = 'F' then 'f' else
  if c = 'G' then 'g' else
  if c = 'H' then 'h' else
  if c = 'I' then 'i' else
  if c = 'J' then 'j' else
  if c = 'K' then 'k' else
  if c = 'L' then 'l' else
  if c = 'M' then 'm' else
  if c = 'N' then 'n' else
  if c = 'O' then 'o' else
  if c = 'P' then 'p' else
  if c = 'Q' then 'q' else
  if c = 'R' then 'r' else
  if c = 'S' then 's' else
  if c = 'T' then 't' else
  if c = 'U' then 'u' else
  if c = 'V' then 'v' else
  if c = 'W' then 'w' else
  if c = 'X' then 'x' else
  if c = 'Y' then 'y' else
  if c = 'Z' then 'z' else
  c

lemma pyCharLower_idem (c : Char) : pyCharLower (pyCharLower c) = pyCharLower c := by
  by_cases h1 : c = 'A'
  · subst h1; decide
  by_cases h2 : c = 'B'
  · subst h2; decide
  by_cases h3 : c = 'C'
  · subst h3; decide
  by_cases h4 : c = 'D'
  · subst h4; decide
  by_cases h5 : c = 'E'
  · subst h5; decide
  by_cases h6 : c = 'F'
  · subst h6; decide
  by_cases h7 : c = 'G'
  · subst h7; decide
  by_cases h8 : c = 'H'
  · subst h8; decide
  by_cases h9 : c = 'I'
  · subst h9; decide
  by_cases h10 : c = 'J'
  · subst h10; decide
  by_cases h11 : c = 'K'
  · subst h11; decide
  by_cases h12 : c = 'L'
  · subst h12; decide
  by_cases h13 : c = 'M'
  · subst h13; decide
  by_cases h14 : c = 'N'
  · subst h14; decide
  by_cases h15 : c = 'O'
  · subst h15; decide
  by_cases h16 : c = 'P'
  · subst h16; decide
  by_cases h17 : c = 'Q'
  · subst h17; decide
  by_cases h18 : c = 'R'
  · subst h18; decide
  by_cases h19 : c = 'S'
  · subst h19; decide
  by_cases h20 : c = 'T'
  · subst h20; decide
  by_cases h21 : c = 'U'
  · subst h21; decide
  by_cases h22 : c = 'V'
  · subst h22; decide
  by_cases h23 : c = 'W'
  · subst h23; decide
  by_cases h24 : c = 'X'
  · subst h24; decide
  by_cases h25 : c = 'Y'
  · subst h25; decide
  by_cases h26 : c = 'Z'
  · subst h26; decide
  have hfix : pyCharLower c = c := by
    unfold pyCharLower
    rw [if_neg h1, if_neg h2, if_neg h3, if_neg h4, if_neg h5, if_neg h6, if_neg h7, if_neg h8, if_neg h9, if_neg h10, if_neg h11, if_neg h12, if_neg h13, if_neg h14, if_neg h15, if_neg h16, if_neg h17, if_neg h18, if_neg h19, if_neg h20, if_neg h21, if_neg h22, if_neg h23, if_neg h24, if_neg h25, if_neg h26]
  rw [hfix, hfix]

lemma pyCharLower_space_iff (c : Char) : pyCharLower c = ' ' ↔ c = ' ' := by
  by_cases h1 : c = 'A'
  · subst h1; decide
  by_cases h2 : c = 'B'
  · subst h2; decide
  by_cases h3 : c = 'C'
  · subst h3; decide
  by_cases h4 : c = 'D'
  · subst h4; decide
  by_cases h5 : c = 'E'
  · subst h5; decide
  by_cases h6 : c = 'F'
  · subst h6; decide
  by_cases h7 : c = 'G'
  · subst h7; decide
  by_cases h8 : c = 'H'
  · subst h8; decide
  by_cases h9 : c = 'I'
  · subst h9; decide
  by_cases h10 : c = 'J'
  · subst h10; decide
  by_cases h11 : c = 'K'
  · subst h11; decide
  by_cases h12 : c = 'L'
  · subst h12; decide
  by_cases h13 : c = 'M'
  · subst h13; decide
  by_cases h14 : c = 'N'
  · subst h14; decide
  by_cases h15 : c = 'O'
  · subst h15; decide
  by_cases h16 : c = 'P'
  · subst h16; decide
  by_cases h17 : c = 'Q'
  · subst h17; decide
  by_cases h18 : c = 'R'
  · subst h18; decide
  by_cases h19 : c = 'S'
  · subst h19; decide
  by_cases h20 : c = 'T'
  · subst h20; decide
  by_cases h21 : c = 'U'
  · subst h21; decide
  by_cases h22 : c = 'V'
  · subst h22; decide
  by_cases h23 : c = 'W'
  · subst h23; decide
  by_cases h24 : c = 'X'
  · subst h24; decide
  by_cases h25 : c = 'Y'
  · subst h25; decide
  by_cases h26 : c = 'Z'
  · subst h26; decide
  have hfix : pyCharLower c = c := by
    unfold pyCharLower
    rw [if_neg h1, if_neg h2, if_neg h3, if_neg h4, if_neg h5, if_neg h6, if_neg h7, if_neg h8, if_neg h9, if_neg h10, if_neg h11, if_neg h12, if_neg h13, if_neg h14, if_neg h15, if_neg h16, if_neg h17, if_neg h18, if_neg h19, if_neg h20, if_neg h21, if_neg h22, if_neg h23, if_neg h24, if_neg h25, if_neg h26]
  rw [hfix]

/-- Python's substring test `needle in hay`, structurally recursive. -/
def pyInStr (needle : PyStr) : PyStr → Bool
  | [] => needle.isPrefixOf []
  | c :: rest => needle.isPrefixOf (c :: rest) || pyInStr needle rest

lemma pyInStr_iff (needle hay : PyStr) :
    pyInStr needle hay = true ↔ needle <:+: hay := by
  induction hay with
  | nil =>
      simp [pyInStr, List.isPrefixOf_iff_prefix]
  | cons c rest ih =>
      simp only [pyInStr, Bool.or_eq_true, List.isPrefixOf_iff_prefix, ih,
        List.infix_cons_iff]

/-- `VectorStore._quick_similarity_score` (lines 370-403): term-overlap
scoring with an exact-phrase bonus and a high-ratio bonus.  Python floats
are modelled as exact rationals. -/
def quickSimilarityScore (query : PyStr) (query_terms : List PyStr)
    (content : PyStr) : ℚ :=
  if query_terms = [] then 0
  else
    let content_lower := content.map pyCharLower
    let matchCount := (query_terms.filter (fun term =>
        pyInStr term content_lower ||
        pyInStr (term.map pyCharLower) content_lower)).length
    if matchCount = 0 then 0
    else
      let base_score : ℚ := (matchCount : ℚ) / (query_terms.length : ℚ)
      let query_clean := (query.filter (fun c => ¬ c = ' ')).map pyCharLower
      let content_clean := content_lower.filter (fun c => ¬ c = ' ')
      if pyInStr query_clean content_clean then min 1 (base_score + 3/10)
      else if base_score ≥ 8/10 then min 1 (base_score + 1/10)
      else min 1 (base_score * (9/10))

/-- The scoring formula exactly as claim C6 states it (spec wording): the
term-overlap ratio, plus 0.3 for an exact space-stripped lowercased
substring match, otherwise plus 0.1 when the ratio is at least 0.8,
otherwise the bare ratio; clamped to [0, 1]; zero when no term matches. -/
def specVectorScoreStated (query : PyStr) (query_terms : List PyStr)
    (content : PyStr) : ℚ :=
  let matched := query_terms.filter (fun t =>
    pyInStr (t.map pyCharLower) (content.map pyCharLower))
  if matched.length = 0 then 0
  else
    let ratio : ℚ := (matched.length : ℚ) / (query_terms.length : ℚ)
    if pyInStr ((query.map pyCharLower).filter (fun c => ¬ c = ' '))
        ((content.map pyCharLower).filter (fun c => ¬ c = ' ')) then
      max 0 (min 1 (ratio + 3/10))
    else if ratio ≥ 8/10 then max 0 (min 1 (ratio + 1/10))
    else max 0 (min 1 ratio)

/-- The C6 scoring formula as amended: identical to `specVectorScoreStated`
except that the no-bonus case scores `0.9 ×` the overlap ratio, as the code
does. -/
def specVectorScoreAmended (query : PyStr) (query_terms : List PyStr)
    (content : PyStr) : ℚ :=
  let matched := query_terms.filter (fun t =>
    pyInStr (t.map pyCharLower) (content.map pyCharLower))
  if matched.length = 0 then 0
  else
    let ratio : ℚ := (matched.length : ℚ) / (query_terms.length : ℚ)
    if pyInStr ((query.map pyCharLower).filter (fun c => ¬ c = ' '))
        ((content.map pyCharLower).filter (fun c => ¬ c = ' ')) then
      max 0 (min 1 (ratio + 3/10))
    else if ratio ≥ 8/10 then max 0 (min 1 (ratio + 1/10))
    else max 0 (min 1 ((9/10) * ratio))

lemma map_pyCharLower_fixed {t content : PyStr}
    (h : t <:+: content.map pyCharLower) : t.map pyCharLower = t := by
  have hmem : ∀ x ∈ t, pyCharLower x = x := by
    intro x hx
    have hx2 : x ∈ content.map pyCharLower := h.subset hx
    obtain ⟨y, _, hy⟩ := List.mem_map.mp hx2
    rw [← hy, pyCharLower_idem]
  calc t.map pyCharLower = t.map id := List.map_congr_left hmem
    _ = t := List.map_id t

lemma infix_or_lower_eq (t content : PyStr) :
    (pyInStr t (content.map pyCharLower) ||
      pyInStr (t.map pyCharLower) (content.map pyCharLower)) =
    pyInStr (t.map pyCharLower) (content.map pyCharLower) := by
  cases h : pyInStr t (content.map pyCharLower)
  · simp
  · have hinf : t <:+: content.map pyCharLower := (pyInStr_iff _ _).mp h
    have := map_pyCharLower_fixed hinf
    rw [this, h]
    simp

lemma filter_space_map_lower (s : PyStr) :
    (s.filter (fun c => ¬ c = ' ')).map pyCharLower =
      (s.map pyCharLower).filter (fun c => ¬ c = ' ') := by
  rw [List.filter_map]
  congr 1
  refine List.filter_congr ?_
  intro c _
  simp only [Function.comp_def]
  by_cases h : c = ' '
  · subst h
    simp [pyCharLower_space_iff]
  · simp only [decide_eq_decide]
    exact not_congr (pyCharLower_space_iff c).symm

/-- C6 (amended).  For every query, non-empty extracted term list and
content, `_quick_similarity_score` equals the spec formula with the
no-bonus case scoring `0.9 ×` the term-overlap ratio: ratio of terms
contained in the content, +0.3 for an exact space-stripped lowercased
substring match, else +0.1 when the ratio is ≥ 0.8, else `0.9 × ratio`,
clamped to [0, 1]; a content matching no term scores 0. -/
theorem C6_vector_score_formula (query : PyStr) (query_terms : List PyStr)
    (content : PyStr) (h : ¬ query_terms = []) :
    quickSimilarityScore query query_terms content =
      specVectorScoreAmended query query_terms content := by
  simp only [quickSimilarityScore, specVectorScoreAmended]
  rw [if_neg h]
  have hfil : query_terms.filter (fun term =>
      pyInStr term (content.map pyCharLower) ||
      pyInStr (term.map pyCharLower) (content.map pyCharLower)) =
      query_terms.filter (fun t =>
      pyInStr (t.map pyCharLower) (content.map pyCharLower)) :=
    List.filter_congr (fun t _ => infix_or_lower_eq t content)
  rw [hfil]
  by_cases hm : (query_terms.filter (fun t =>
      pyInStr (t.map pyCharLower) (content.map pyCharLower))).length = 0
  · rw [if_pos hm, if_pos hm]
  · rw [if_neg hm, if_neg hm]
    rw [filter_space_map_lower query]
    have hpos : (0 : ℚ) < ((query_terms.filter (fun t =>
        pyInStr (t.map pyCharLower) (content.map pyCharLower))).length : ℚ) /
        (query_terms.length : ℚ) := by
      apply div_pos
      · exact_mod_cast Nat.pos_of_ne_zero hm
      · have : query_terms.length ≠ 0 := fun hh => h (List.length_eq_zero.mp hh)
        exact_mod_cast Nat.pos_of_ne_zero this
    split_ifs with h1 h2
    · rw [max_eq_right]
      exact le_min (by norm_num) (by linarith)
    · rw [max_eq_right]
      exact le_min (by norm_num) (by linarith)
    · rw [mul_comm, max_eq_right]
      exact le_min (by norm_num) (by nlinarith)

/-- Witness for C6 (amended): a one-term query matched inside the
content. -/
theorem C6_vector_score_formula_witness :
    ¬ (["ab".toList] = ([] : List PyStr)) ∧
    quickSimilarityScore ("ab".toList) ["ab".toList] ("xABy".toList) =
      specVectorScoreAmended ("ab".toList) ["ab".toList] ("xABy".toList) :=
  ⟨by decide, C6_vector_score_formula ("ab".toList) ["ab".toList] ("xABy".toList)
    (by decide)⟩

/-- Counterexample to C6 as stated: query `"ab cd"` with terms
`["ab", "cd"]` against content `"ab"` has overlap ratio `1/2` and earns no
bonus; the claim's formula gives `1/2`, but the code returns
`0.9 × 1/2 = 9/20`. -/
theorem C6_counterexample :
    quickSimilarityScore ("ab cd".toList) ["ab".toList, "cd".toList] ("ab".toList) =
      9/20 ∧
    specVectorScoreStated ("ab cd".toList) ["ab".toList, "cd".toList] ("ab".toList) =
      1/2 ∧
    ¬ ((9/20 : ℚ) = 1/2) := by
  refine ⟨?_, ?_, by norm_num⟩
  · simp only [quickSimilarityScore]
    rw [if_neg (by decide)]
    have hfil : ((["ab".toList, "cd".toList] : List PyStr).filter (fun term =>
        pyInStr term (("ab".toList).map pyCharLower) ||
        pyInStr (term.map pyCharLower) (("ab".toList).map pyCharLower))).length = 1 := by
      decide
    rw [hfil]
    rw [if_neg (by norm_num)]
    have hph : pyInStr ((("ab cd".toList).filter (fun c => ¬ c = ' ')).map pyCharLower)
        ((("ab".toList).map pyCharLower).filter (fun c => ¬ c = ' ')) = false := by
      decide
    rw [hph]
    have hlen : (["ab".toList, "cd".toList] : List PyStr).length = 2 := by decide
    rw [hlen]
    norm_num
  · simp only [specVectorScoreStated]
    have hfil : ((["ab".toList, "cd".toList] : List PyStr).filter (fun t =>
        pyInStr (t.map pyCharLower) (("ab".toList).map pyCharLower))).length = 1 := by
      decide
    rw [hfil]
    rw [if_neg (by norm_num)]
    have hph : pyInStr ((("ab cd".toList).map pyCharLower).filter (fun c => ¬ c = ' '))
        ((("ab".toList).map pyCharLower).filter (fun c => ¬ c = ' ')) = false := by
      decide
    rw [hph]
    have hlen : (["ab".toList, "cd".toList] : List PyStr).length = 2 := by decide
    rw [hlen]
    norm_num

/-! ### C7: Reciprocal Rank Fusion (`VectorStore._merge_results_rrf`) -/

/-- Accumulated RRF contribution of chunk `c` from one ranked list,
mirroring `for rank, result in enumerate(...): scores[id] += 1/(k+rank+1)`:
the recursion carries the current rank. -/
def rrfListScoreGo (k : Nat) (c : Nat) : List Nat → Nat → ℚ
  | [], _ => 0
  | x :: rest, rank =>
      (if x = c then (1 : ℚ) / (k + rank + 1) else 0) +
        rrfListScoreGo k c rest (rank + 1)

/-- Total RRF contribution of chunk `c` from one ranked list (ranks start
at 0). -/
def rrfListScore (k : Nat) (l : List Nat) (c : Nat) : ℚ :=
  rrfListScoreGo k c l 0

/-- Python `round(x)` (banker's rounding, ties to even). -/
def pyRoundHalfEven (x : ℚ) : ℤ :=
  let f := ⌊x⌋
  if x - f < 1/2 then f
  else if x - f > 1/2 then f + 1
  else if f % 2 = 0 then f else f + 1

/-- Python `round(x, 4)`. -/
def pyRound4 (x : ℚ) : ℚ :=
  ((pyRoundHalfEven (x * 10000) : ℤ) : ℚ) / 10000

/-- The score `_merge_results_rrf` assigns to chunk `c` given the vector
and fulltext ranked lists (chunk ids): the summed reciprocal-rank
contributions with `k = 60`, normalized by the maximum attainable score
`2/(k+1)`, clamped above at 1 and rounded to 4 decimal places. -/
def rrfAssignedScore (vr fr : List Nat) (c : Nat) : ℚ :=
  pyRound4 (min 1 ((rrfListScore 60 vr c + rrfListScore 60 fr c) / (2 / 61)))

lemma rrfListScoreGo_nonneg (k c : Nat) :
    ∀ (l : List Nat) (rank : Nat), 0 ≤ rrfListScoreGo k c l rank := by
  intro l
  induction l with
  | nil => intro rank; simp [rrfListScoreGo]
  | cons x rest ih =>
      intro rank
      simp only [rrfListScoreGo]
      have h1 : (0 : ℚ) ≤ (if x = c then (1 : ℚ) / (k + rank + 1) else 0) := by
        split
        · positivity
        · exact le_refl 0
      have h2 := ih (rank + 1)
      linarith

lemma rrfListScoreGo_count_zero (k c : Nat) :
    ∀ (l : List Nat) (rank : Nat), l.count c = 0 → rrfListScoreGo k c l rank = 0 := by
  intro l
  induction l with
  | nil => intro rank _; simp [rrfListScoreGo]
  | cons x rest ih =>
      intro rank hcount
      rw [List.count_cons] at hcount
      have hx : ¬ x = c := by
        intro hh
        simp [hh] at hcount
      have hrest : rest.count c = 0 := by
        by_cases hh : x = c
        · exact absurd hh hx
        · simpa [hh] using hcount
      simp only [rrfListScoreGo, if_neg hx]
      rw [ih (rank + 1) hrest]
      simp

lemma rrfListScoreGo_count_le_one (k c : Nat) :
    ∀ (l : List Nat) (rank : Nat), l.count c ≤ 1 →
      rrfListScoreGo k c l rank ≤ 1 / (k + rank + 1) := by
  intro l
  induction l with
  | nil =>
      intro rank _
      simp only [rrfListScoreGo]
      positivity
  | cons x rest ih =>
      intro rank hcount
      rw [List.count_cons] at hcount
      simp only [rrfListScoreGo]
      by_cases hx : x = c
      · have hrest : rest.count c = 0 := by
          simp [hx] at hcount
          omega
        rw [if_pos hx, rrfListScoreGo_count_zero k c rest (rank + 1) hrest]
        simp
      · have hrest : rest.count c ≤ 1 := by
          simp [hx] at hcount
          omega
        rw [if_neg hx]
        have h1 := ih (rank + 1) hrest
        have h2 : (1 : ℚ) / (k + (rank + 1) + 1) ≤ 1 / (k + rank + 1) := by
          apply one_div_le_one_div_of_le
          · positivity
          · push_cast
            linarith
        push_cast at h1 h2 ⊢
        linarith

lemma rrfListScore_head (k : Nat) (c : Nat) (tl : List Nat) :
    (1 : ℚ) / (k + 1) ≤ rrfListScore k (c :: tl) c := by
  simp only [rrfListScore, rrfListScoreGo, if_pos rfl]
  have := rrfListScoreGo_nonneg k c tl 1
  push_cast
  ring_nf
  linarith

lemma pyRoundHalfEven_le (x : ℚ) : (pyRoundHalfEven x : ℚ) ≤ x + 1/2 := by
  simp only [pyRoundHalfEven]
  have hfl : (⌊x⌋ : ℚ) ≤ x := Int.floor_le x
  split_ifs with h1 h2 h3
  · linarith
  · push_cast
    linarith
  · linarith
  · push_cast
    have : x - ⌊x⌋ = 1/2 := le_antisymm (not_lt.mp h2) (not_lt.mp h1)
    linarith

lemma pyRound4_le (x : ℚ) : pyRound4 x ≤ x + 1/20000 := by
  simp only [pyRound4]
  have h := pyRoundHalfEven_le (x * 10000)
  rw [div_le_iff (by norm_num : (0:ℚ) < 10000)]
  linarith

lemma pyRound4_one : pyRound4 1 = 1 := by
  have hfl : ⌊(1 : ℚ) * 10000⌋ = 10000 := by
    norm_num
  simp only [pyRound4, pyRoundHalfEven, hfl]
  norm_num

/-- C7 (amended).  With the assigned hybrid score being the rounded,
clamped, normalized RRF sum, a chunk ranked first in both the vector and
fulltext lists is assigned score 1, and any chunk occurring at a single
rank of a single list is assigned a strictly smaller score. -/
theorem C7_rrf_first_in_both_beats_single (vr fr : List Nat) (c d : Nat)
    (hv : vr.head? = some c) (hf : fr.head? = some c)
    (hd : (vr ++ fr).count d = 1) :
    rrfAssignedScore vr fr c = 1 ∧
    rrfAssignedScore vr fr d < rrfAssignedScore vr fr c := by
  obtain ⟨vtl, rfl⟩ : ∃ tl, vr = c :: tl := by
    cases vr with
    | nil => simp at hv
    | cons a tl =>
        simp only [List.head?_cons, Option.some.injEq] at hv
        exact ⟨tl, by rw [hv]⟩
  obtain ⟨ftl, rfl⟩ : ∃ tl, fr = c :: tl := by
    cases fr with
    | nil => simp at hf
    | cons a tl =>
        simp only [List.head?_cons, Option.some.injEq] at hf
        exact ⟨tl, by rw [hf]⟩
  have hc_raw : (2 : ℚ) / 61 ≤
      rrfListScore 60 (c :: vtl) c + rrfListScore 60 (c :: ftl) c := by
    have h1 := rrfListScore_head 60 c vtl
    have h2 := rrfListScore_head 60 c ftl
    norm_num at h1 h2 ⊢
    linarith
  have hc_min : min 1 ((rrfListScore 60 (c :: vtl) c + rrfListScore 60 (c :: ftl) c) /
      (2 / 61)) = 1 := by
    apply min_eq_left
    rw [le_div_iff (by norm_num : (0:ℚ) < 2/61)]
    linarith
  have hc_score : rrfAssignedScore (c :: vtl) (c :: ftl) c = 1 := by
    rw [rrfAssignedScore, hc_min, pyRound4_one]
  refine ⟨hc_score, ?_⟩
  rw [hc_score]
  -- d occurs exactly once across the two lists
  rw [List.count_append] at hd
  have hdv : (c :: vtl).count d ≤ 1 := by omega
  have hdf : (c :: ftl).count d ≤ 1 := by omega
  have hd0 : (c :: vtl).count d = 0 ∨ (c :: ftl).count d = 0 := by omega
  have hraw_le : rrfListScore 60 (c :: vtl) d + rrfListScore 60 (c :: ftl) d ≤
      1 / 61 := by
    rcases hd0 with h0 | h0
    · rw [rrfListScore, rrfListScore,
          rrfListScoreGo_count_zero 60 d (c :: vtl) 0 h0]
      have := rrfListScoreGo_count_le_one 60 d (c :: ftl) 0 hdf
      norm_num at this ⊢
      linarith
    · rw [rrfListScore, rrfListScore,
          rrfListScoreGo_count_zero 60 d (c :: ftl) 0 h0]
      have := rrfListScoreGo_count_le_one 60 d (c :: vtl) 0 hdv
      norm_num at this ⊢
      linarith
  have hraw_nonneg : (0 : ℚ) ≤
      rrfListScore 60 (c :: vtl) d + rrfListScore 60 (c :: ftl) d := by
    have h1 := rrfListScoreGo_nonneg 60 d (c :: vtl) 0
    have h2 := rrfListScoreGo_nonneg 60 d (c :: ftl) 0
    rw [rrfListScore, rrfListScore]
    linarith
  have hz_le : (rrfListScore 60 (c :: vtl) d + rrfListScore 60 (c :: ftl) d) /
      (2 / 61) ≤ 1 / 2 := by
    rw [div_le_iff (by norm_num : (0:ℚ) < 2/61)]
    linarith
  have hmin_le : min 1 ((rrfListScore 60 (c :: vtl) d + rrfListScore 60 (c :: ftl) d) /
      (2 / 61)) ≤ 1 / 2 := le_trans (min_le_right _ _) hz_le
  have := pyRound4_le (min 1 ((rrfListScore 60 (c :: vtl) d +
      rrfListScore 60 (c :: ftl) d) / (2 / 61)))
  rw [rrfAssignedScore]
  linarith

/-- Witness for C7 (amended): chunk 1 ranked first in both lists beats
chunk 2, which appears only in the vector list at rank 1. -/
theorem C7_rrf_first_in_both_beats_single_witness :
    ([1, 2] : List Nat).head? = some 1 ∧ ([1, 3] : List Nat).head? = some 1 ∧
    (([1, 2] ++ [1, 3] : List Nat).count 2 = 1) ∧
    (rrfAssignedScore [1, 2] [1, 3] 1 = 1 ∧
     rrfAssignedScore [1, 2] [1, 3] 2 < rrfAssignedScore [1, 2] [1, 3] 1) :=
  ⟨rfl, rfl, by decide,
   C7_rrf_first_in_both_beats_single [1, 2] [1, 3] 1 2 rfl rfl (by decide)⟩

/-- Counterexample to C7 as stated: the claim's formula
`min(1, Σ/(2/61))` for a chunk at rank 1 of the vector list only gives
`61/124`, but the code assigns the value rounded to 4 decimal places,
`0.4919`, which differs. -/
theorem C7_counterexample :
    rrfAssignedScore [0, 1] [] 1 = 4919/10000 ∧
    min 1 ((rrfListScore 60 [0, 1] 1 + rrfListScore 60 [] 1) / (2 / 61)) = 61/124 ∧
    ¬ ((4919/10000 : ℚ) = 61/124) := by
  have hraw : rrfListScore 60 [0, 1] 1 + rrfListScore 60 [] 1 = 1/62 := by
    simp [rrfListScore, rrfListScoreGo]
    norm_num
  have hmin : min 1 ((rrfListScore 60 [0, 1] 1 + rrfListScore 60 [] 1) / (2 / 61)) =
      61/124 := by
    rw [hraw]
    rw [min_eq_right (by norm_num)]
    norm_num
  refine ⟨?_, hmin, by norm_num⟩
  rw [rrfAssignedScore, hmin]
  have hfl : ⌊(61 / 124 : ℚ) * 10000⌋ = 4919 := by
    rw [Int.floor_eq_iff]
    norm_num
  simp only [pyRound4, pyRoundHalfEven, hfl]
  norm_num

/-! ## Ingestion pipeline (`app/tasks/knowledge_base.py`, `process_document_task`) -/

/-- An embedding vector (opaque to the pipeline logic). -/
abbrev EmbVec := List ℚ

/-- The document fields `process_document_task` writes. -/
structure DocumentState where
  status : String
  chunk_count : Nat
  token_count : Int
  error_message : Option PyStr
  deriving Repr, DecidableEq

/-- `process_document_task` on an existing document, final state only (the
intermediate `processing` write is overwritten by the terminal write).
External effects are passed in explicitly: `extract` is the outcome of text
extraction (`Except` error = the raised exception's message), and
`embedBatch` is `VectorStore.embed_texts` via the external model manager.
Chunking uses the real `chunkText`; a zero-chunk result raises
`ValueError("No chunks generated from document")`.  `store_chunks` zips the
chunks with the returned embeddings and creates one row per pair; on
success the document gets `completed` status, the created-row count and
token sum, and a cleared error message.  Any raised error is recorded as
`error` status with the message truncated to 500 characters
(`str(e)[:500]`). -/
def processDocumentTask (doc : DocumentState) (cfg : ChunkerConfig)
    (extract : Except PyStr PyStr)
    (embedBatch : List PyStr → Except PyStr (List EmbVec)) : DocumentState :=
  match extract with
  | .error e =>
      { doc with
        status := "error",
        error_message := some (e.take 500) }
  | .ok text =>
      let chunks := chunkText cfg text
      if chunks = [] then
        { doc with
          status := "error",
          error_message := some (("No chunks generated from document".toList).take 500) }
      else
        match embedBatch (chunks.map (fun c => c.content)) with
        | .error e =>
            { doc with
              status := "error",
              error_message := some (e.take 500) }
        | .ok embs =>
            let created := chunks.zip embs
            { doc with
              status := "completed",
              chunk_count := created.length,
              token_count := (created.map (fun p => p.1.token_count)).sum,
              error_message := none }

/-- C9.  In every run of the pipeline on an existing document, with an
embedder that returns one vector per text: if extraction raises, or
chunking yields no chunks, the run ends with status `error` and an error
message of at most 500 characters; and no run ends with status `completed`
and `chunk_count = 0`.  (Chunking itself is a total function in this
embedding; its failure mode is the zero-chunk case.) -/
theorem C9_pipeline_failure_semantics (doc : DocumentState) (cfg : ChunkerConfig)
    (extract : Except PyStr PyStr)
    (embedBatch : List PyStr → Except PyStr (List EmbVec))
    (hlen : ∀ ts es, embedBatch ts = .ok es → es.length = ts.length) :
    ((∀ e, extract = .error e →
        (processDocumentTask doc cfg extract embedBatch).status = "error" ∧
        ∃ m, (processDocumentTask doc cfg extract embedBatch).error_message = some m ∧
          m.length ≤ 500) ∧
     (∀ t, extract = .ok t → chunkText cfg t = [] →
        (processDocumentTask doc cfg extract embedBatch).status = "error" ∧
        ∃ m, (processDocumentTask doc cfg extract embedBatch).error_message = some m ∧
          m.length ≤ 500)) ∧
    ¬ ((processDocumentTask doc cfg extract embedBatch).status = "completed" ∧
       (processDocumentTask doc cfg extract embedBatch).chunk_count = 0) := by
  refine ⟨⟨?_, ?_⟩, ?_⟩
  · intro e he
    subst he
    refine ⟨rfl, e.take 500, rfl, ?_⟩
    have := List.length_take 500 e
    omega
  · intro t ht hchunks
    subst ht
    have hred : processDocumentTask doc cfg (Except.ok t) embedBatch =
        { doc with
          status := "error",
          error_message := some (("No chunks generated from document".toList).take 500) } := by
      simp only [processDocumentTask]
      rw [if_pos hchunks]
    rw [hred]
    refine ⟨rfl, ("No chunks generated from document".toList).take 500, rfl, ?_⟩
    have := List.length_take 500 ("No chunks generated from document".toList)
    omega
  · intro hcc
    obtain ⟨hstat, hcount⟩ := hcc
    match hex : extract with
    | .error e =>
        simp [processDocumentTask] at hstat
    | .ok t =>
        by_cases hch : chunkText cfg t = []
        · simp [processDocumentTask, hch] at hstat
        · simp only [processDocumentTask] at hstat hcount
          rw [if_neg hch] at hstat hcount
          match hemb : embedBatch ((chunkText cfg t).map (fun c => c.content)) with
          | .error e =>
              rw [hemb] at hstat
              simp at hstat
          | .ok embs =>
              rw [hemb] at hcount
              simp only [List.length_zip, List.length_map] at hcount
              have hlen2 := hlen _ _ hemb
              rw [List.length_map] at hlen2
              have : (chunkText cfg t).length = 0 := by omega
              exact hch (List.length_eq_zero.mp this)

/-- A length-preserving stub embedder: one empty vector per input text. -/
def stubEmbedBatch (texts : List PyStr) : Except PyStr (List EmbVec) :=
  .ok (texts.map (fun _ => []))

/-- Witness for C9: a successful run over a one-paragraph document with a
length-preserving embedder. -/
theorem C9_pipeline_failure_semantics_witness :
    (∀ ts es, stubEmbedBatch ts = .ok es → es.length = ts.length) ∧
    ¬ ((processDocumentTask ⟨"pending", 0, 0, none⟩
          { chunk_size := 500, chunk_overlap := 50, separators := none }
          (.ok ("hello world".toList)) stubEmbedBatch).status = "completed" ∧
       (processDocumentTask ⟨"pending", 0, 0, none⟩
          { chunk_size := 500, chunk_overlap := 50, separators := none }
          (.ok ("hello world".toList)) stubEmbedBatch).chunk_count = 0) :=
  ⟨fun ts es h => by
      simp only [stubEmbedBatch, Except.ok.injEq] at h
      rw [← h, List.length_map],
   (C9_pipeline_failure_semantics ⟨"pending", 0, 0, none⟩
      { chunk_size := 500, chunk_overlap := 50, separators := none }
      (.ok ("hello world".toList)) stubEmbedBatch
      (fun ts es h => by
        simp only [stubEmbedBatch, Except.ok.injEq] at h
        rw [← h, List.length_map])).2⟩

end Clouisle